import Mathlib

/-!
Verification of the firechat client-side E2EE layer (`src/services/crypto.ts`,
`useEncryption` / `useEncryptedChat` composables).

The TypeScript source is shallowly embedded: byte arrays (`Uint8Array`) become
`List Nat` with the side condition that every entry is `< 256`; JavaScript
strings become `String`; the platform primitives (`btoa`/`atob`,
`TextEncoder`/`TextDecoder`, `crypto.subtle` AES-GCM / ECDH / HKDF,
`JSON.stringify`/`JSON.parse`) are modelled as executable Lean functions or as
explicit functional parameters, and the mutable module-level `Set` of seen
nonces becomes explicit state passing over an insertion-ordered duplicate-free
list. Thrown exceptions become `Except` results carrying the same message and
code strings the source constructs.
-/

namespace Firechat

/-! ### Base64 (`toBase64` via `btoa`, `fromBase64` via `atob`) -/

/-- The standard base64 alphabet used by `btoa`/`atob`. -/
def b64Alphabet : List Char :=
  "ABCDEFGHIJKLMNOPQRSTUVWXYZabcdefghijklmnopqrstuvwxyz0123456789+/".data

/-- Character for a 6-bit group (indices `≥ 64` never occur on valid input). -/
def sextetToChar (n : Nat) : Char := b64Alphabet.getD n 'A'

/-- Inverse alphabet lookup; `none` on a character outside the alphabet,
modelling `atob` throwing `InvalidCharacterError`. -/
def charToSextet (c : Char) : Option Nat := b64Alphabet.findIdx? (· == c)

/-- Byte list to base64 characters, three bytes at a time, `=`-padded,
as `btoa(String.fromCharCode(...bytes))` produces. -/
def b64EncodeBytes : List Nat → List Char
  | [] => []
  | [a] => [sextetToChar (a / 4), sextetToChar (a % 4 * 16), '=', '=']
  | [a, b] => [sextetToChar (a / 4), sextetToChar (a % 4 * 16 + b / 16),
               sextetToChar (b % 16 * 4), '=']
  | a :: b :: c :: rest =>
      sextetToChar (a / 4) :: sextetToChar (a % 4 * 16 + b / 16) ::
      sextetToChar (b % 16 * 4 + c / 64) :: sextetToChar (c % 64) ::
      b64EncodeBytes rest

/-- Base64 characters back to bytes, four characters at a time, accepting the
padded forms and the unpadded final groups `atob` accepts; `none` on a
character outside the alphabet or a malformed group. -/
def b64DecodeChars : List Char → Option (List Nat)
  | [] => some []
  | c1 :: c2 :: c3 :: c4 :: rest =>
      (charToSextet c1).bind fun s1 =>
      (charToSextet c2).bind fun s2 =>
      if c3 = '=' then
        if c4 = '=' ∧ rest = [] then some [s1 * 4 + s2 / 16] else none
      else
        (charToSextet c3).bind fun s3 =>
        if c4 = '=' then
          if rest = [] then some [s1 * 4 + s2 / 16, s2 % 16 * 16 + s3 / 4] else none
        else
          (charToSextet c4).bind fun s4 =>
          (b64DecodeChars rest).bind fun bs =>
          some ((s1 * 4 + s2 / 16) :: (s2 % 16 * 16 + s3 / 4) :: (s3 % 4 * 64 + s4) :: bs)
  | [c1, c2] =>
      (charToSextet c1).bind fun s1 =>
      (charToSextet c2).bind fun s2 => some [s1 * 4 + s2 / 16]
  | [c1, c2, c3] =>
      (charToSextet c1).bind fun s1 =>
      (charToSextet c2).bind fun s2 =>
      (charToSextet c3).bind fun s3 => some [s1 * 4 + s2 / 16, s2 % 16 * 16 + s3 / 4]
  | _ => none

/-- `toBase64(bytes)` from the source: `btoa(String.fromCharCode(...bytes))`. -/
def toBase64 (bytes : List Nat) : String := String.mk (b64EncodeBytes bytes)

/-- `fromBase64(b64)` from the source: `atob` then per-character
`charCodeAt`; `none` models `atob` throwing on invalid input. -/
def fromBase64 (b64 : String) : Option (List Nat) := b64DecodeChars b64.data

theorem charToSextet_sextetToChar (n : Nat) (h : n < 64) :
    charToSextet (sextetToChar n) = some n := by
  interval_cases n <;> rfl

theorem sextetToChar_ne_pad (n : Nat) (h : n < 64) : sextetToChar n ≠ '=' := by
  interval_cases n <;> decide

theorem b64_decode_encode :
    ∀ bs : List Nat, (∀ x ∈ bs, x < 256) → b64DecodeChars (b64EncodeBytes bs) = some bs
  | [], _ => rfl
  | [a], h => by
      have ha : a < 256 := h a (by simp)
      simp only [b64EncodeBytes, b64DecodeChars,
        charToSextet_sextetToChar (a / 4) (by omega),
        charToSextet_sextetToChar (a % 4 * 16) (by omega), Option.some_bind]
      simp
      omega
  | [a, b], h => by
      have ha : a < 256 := h a (by simp)
      have hb : b < 256 := h b (by simp)
      simp only [b64EncodeBytes, b64DecodeChars,
        charToSextet_sextetToChar (a / 4) (by omega),
        charToSextet_sextetToChar (a % 4 * 16 + b / 16) (by omega),
        charToSextet_sextetToChar (b % 16 * 4) (by omega), Option.some_bind]
      rw [if_neg (sextetToChar_ne_pad (b % 16 * 4) (by omega))]
      simp
      omega
  | a :: b :: c :: rest, h => by
      have ha : a < 256 := h a (by simp)
      have hb : b < 256 := h b (by simp)
      have hc : c < 256 := h c (by simp)
      have ih := b64_decode_encode rest (fun x hx => h x (by simp [hx]))
      cases rest with
      | nil =>
          simp only [b64EncodeBytes, b64DecodeChars,
            charToSextet_sextetToChar (a / 4) (by omega),
            charToSextet_sextetToChar (a % 4 * 16 + b / 16) (by omega),
            charToSextet_sextetToChar (b % 16 * 4 + c / 64) (by omega),
            charToSextet_sextetToChar (c % 64) (by omega), Option.some_bind]
          rw [if_neg (sextetToChar_ne_pad (b % 16 * 4 + c / 64) (by omega)),
            if_neg (sextetToChar_ne_pad (c % 64) (by omega))]
          simp [b64DecodeChars]
          omega
      | cons d ds =>
          simp only [b64EncodeBytes, b64DecodeChars,
            charToSextet_sextetToChar (a / 4) (by omega),
            charToSextet_sextetToChar (a % 4 * 16 + b / 16) (by omega),
            charToSextet_sextetToChar (b % 16 * 4 + c / 64) (by omega),
            charToSextet_sextetToChar (c % 64) (by omega), Option.some_bind]
          rw [if_neg (sextetToChar_ne_pad (b % 16 * 4 + c / 64) (by omega)),
            if_neg (sextetToChar_ne_pad (c % 64) (by omega))]
          simp [ih]
          omega

theorem fromBase64_toBase64_eq (bytes : List Nat) (h : ∀ x ∈ bytes, x < 256) :
    fromBase64 (toBase64 bytes) = some bytes :=
  b64_decode_encode bytes h

/-! ### UTF-8 (`stringToBytes` via `TextEncoder`, `bytesToString` via `TextDecoder`) -/

/-- UTF-8 encoding of one Unicode scalar value. -/
def utf8EncodeNat (c : Nat) : List Nat :=
  if c < 0x80 then [c]
  else if c < 0x800 then [0xC0 + c / 64, 0x80 + c % 64]
  else if c < 0x10000 then [0xE0 + c / 4096, 0x80 + c / 64 % 64, 0x80 + c % 64]
  else [0xF0 + c / 262144, 0x80 + c / 4096 % 64, 0x80 + c / 64 % 64, 0x80 + c % 64]

/-- `stringToBytes(str)` from the source: `new TextEncoder().encode(str)`. -/
def stringToBytes (s : String) : List Nat := s.data.flatMap fun c => utf8EncodeNat c.toNat

/-- One UTF-8 decoding step: given a lead byte and the remaining input, yields
the decoded scalar value (U+FFFD on a malformed sequence, as
`TextDecoder.decode` substitutes in its default replacing mode) and the input
left over. -/
def utf8DecodeStep (b : Nat) (rest : List Nat) : Nat × List Nat :=
  if b < 0x80 then (b, rest)
  else if b < 0xC0 then (0xFFFD, rest)
  else if b < 0xE0 then
    match rest with
    | b2 :: r2 =>
        if 0x80 ≤ b2 ∧ b2 < 0xC0 then ((b - 0xC0) * 64 + (b2 - 0x80), r2)
        else (0xFFFD, rest)
    | [] => (0xFFFD, [])
  else if b < 0xF0 then
    match rest with
    | b2 :: b3 :: r2 =>
        if (0x80 ≤ b2 ∧ b2 < 0xC0) ∧ (0x80 ≤ b3 ∧ b3 < 0xC0) then
          ((b - 0xE0) * 4096 + (b2 - 0x80) * 64 + (b3 - 0x80), r2)
        else (0xFFFD, rest)
    | _ => (0xFFFD, [])
  else if b < 0xF8 then
    match rest with
    | b2 :: b3 :: b4 :: r2 =>
        if (0x80 ≤ b2 ∧ b2 < 0xC0) ∧ (0x80 ≤ b3 ∧ b3 < 0xC0) ∧ (0x80 ≤ b4 ∧ b4 < 0xC0) then
          ((b - 0xF0) * 262144 + (b2 - 0x80) * 4096 + (b3 - 0x80) * 64 + (b4 - 0x80), r2)
        else (0xFFFD, rest)
    | _ => (0xFFFD, [])
  else (0xFFFD, rest)

theorem utf8DecodeStep_length (b : Nat) (rest : List Nat) :
    (utf8DecodeStep b rest).2.length ≤ rest.length := by
  simp only [utf8DecodeStep]
  repeat' split
  all_goals simp_all
  all_goals omega

/-- UTF-8 decoding of a byte list back to scalar values. -/
def utf8DecodeNats : List Nat → List Nat
  | [] => []
  | b :: rest =>
      (utf8DecodeStep b rest).1 :: utf8DecodeNats (utf8DecodeStep b rest).2
termination_by l => l.length
decreasing_by
  simp only [List.length_cons]
  exact Nat.lt_succ_of_le (utf8DecodeStep_length b rest)

/-- `bytesToString(bytes)` from the source: `new TextDecoder().decode(bytes)`. -/
def bytesToString (bs : List Nat) : String :=
  String.mk ((utf8DecodeNats bs).map Char.ofNat)

theorem char_toNat_lt (c : Char) : c.toNat < 0x110000 := by
  rcases c.valid with h | ⟨_, h⟩
  · exact Nat.lt_trans h (by decide)
  · exact h

theorem utf8EncodeNat_lt_256 (c : Nat) (h : c < 0x110000) :
    ∀ x ∈ utf8EncodeNat c, x < 256 := by
  simp only [utf8EncodeNat]
  split_ifs <;> intro x hx <;> simp at hx <;> omega

theorem stringToBytes_lt_256 (s : String) : ∀ x ∈ stringToBytes s, x < 256 := by
  intro x hx
  simp only [stringToBytes, List.mem_flatMap] at hx
  obtain ⟨c, _, hc⟩ := hx
  exact utf8EncodeNat_lt_256 c.toNat (char_toNat_lt c) x hc

theorem utf8DecodeStep_encode (c : Nat) (h : c < 0x110000) (rest : List Nat) :
    ∃ b t, utf8EncodeNat c = b :: t ∧ utf8DecodeStep b (t ++ rest) = (c, rest) := by
  by_cases h1 : c < 0x80
  · refine ⟨c, [], by simp [utf8EncodeNat, h1], ?_⟩
    simp [utf8DecodeStep, h1]
  · by_cases h2 : c < 0x800
    · refine ⟨0xC0 + c / 64, [0x80 + c % 64], by simp [utf8EncodeNat, h1, h2], ?_⟩
      have hb1 : ¬ (0xC0 + c / 64 < 0x80) := by omega
      have hb2 : ¬ (0xC0 + c / 64 < 0xC0) := by omega
      have hb3 : 0xC0 + c / 64 < 0xE0 := by omega
      have hc2 : 0x80 ≤ 0x80 + c % 64 ∧ 0x80 + c % 64 < 0xC0 := by omega
      simp only [utf8DecodeStep, if_neg hb1, if_neg hb2, if_pos hb3, List.cons_append,
        if_pos hc2, Prod.mk.injEq]
      exact ⟨by omega, rfl⟩
    · by_cases h3 : c < 0x10000
      · refine ⟨0xE0 + c / 4096, [0x80 + c / 64 % 64, 0x80 + c % 64],
          by simp [utf8EncodeNat, h1, h2, h3], ?_⟩
        have hb1 : ¬ (0xE0 + c / 4096 < 0x80) := by omega
        have hb2 : ¬ (0xE0 + c / 4096 < 0xC0) := by omega
        have hb3 : ¬ (0xE0 + c / 4096 < 0xE0) := by omega
        have hb4 : 0xE0 + c / 4096 < 0xF0 := by omega
        have hc2 : (0x80 ≤ 0x80 + c / 64 % 64 ∧ 0x80 + c / 64 % 64 < 0xC0) ∧
            (0x80 ≤ 0x80 + c % 64 ∧ 0x80 + c % 64 < 0xC0) := by omega
        simp only [utf8DecodeStep, if_neg hb1, if_neg hb2, if_neg hb3, if_pos hb4,
          List.cons_append, if_pos hc2, Prod.mk.injEq]
        exact ⟨by omega, rfl⟩
      · refine ⟨0xF0 + c / 262144, [0x80 + c / 4096 % 64, 0x80 + c / 64 % 64, 0x80 + c % 64],
          by simp [utf8EncodeNat, h1, h2, h3], ?_⟩
        have hb1 : ¬ (0xF0 + c / 262144 < 0x80) := by omega
        have hb2 : ¬ (0xF0 + c / 262144 < 0xC0) := by omega
        have hb3 : ¬ (0xF0 + c / 262144 < 0xE0) := by omega
        have hb4 : ¬ (0xF0 + c / 262144 < 0xF0) := by omega
        have hb5 : 0xF0 + c / 262144 < 0xF8 := by omega
        have hc2 : (0x80 ≤ 0x80 + c / 4096 % 64 ∧ 0x80 + c / 4096 % 64 < 0xC0) ∧
            (0x80 ≤ 0x80 + c / 64 % 64 ∧ 0x80 + c / 64 % 64 < 0xC0) ∧
            (0x80 ≤ 0x80 + c % 64 ∧ 0x80 + c % 64 < 0xC0) := by omega
        simp only [utf8DecodeStep, if_neg hb1, if_neg hb2, if_neg hb3, if_neg hb4,
          if_pos hb5, List.cons_append, if_pos hc2, Prod.mk.injEq]
        exact ⟨by omega, rfl⟩

theorem utf8Decode_encode_cons (c : Nat) (h : c < 0x110000) (rest : List Nat) :
    utf8DecodeNats (utf8EncodeNat c ++ rest) = c :: utf8DecodeNats rest := by
  obtain ⟨b, t, he, hs⟩ := utf8DecodeStep_encode c h rest
  rw [he, List.cons_append, utf8DecodeNats, hs]

theorem utf8Decode_encodeList :
    ∀ cs : List Char,
      utf8DecodeNats (cs.flatMap fun c => utf8EncodeNat c.toNat) = cs.map Char.toNat
  | [] => by
      rw [List.flatMap_nil, utf8DecodeNats, List.map_nil]
  | c :: cs => by
      rw [List.flatMap_cons, utf8Decode_encode_cons c.toNat (char_toNat_lt c),
        utf8Decode_encodeList cs, List.map_cons]

theorem bytesToString_stringToBytes (s : String) : bytesToString (stringToBytes s) = s := by
  cases s with
  | mk data =>
      simp only [bytesToString, stringToBytes]
      rw [utf8Decode_encodeList data, List.map_map]
      congr 1
      simp only [Function.comp_def, Char.ofNat_toNat]
      exact List.map_id data

/-! ### Conversation ids (`createConversationId`) -/

/-- JavaScript `Array.prototype.join(sep)`. -/
def joinSep (sep : String) : List String → String
  | [] => ""
  | [x] => x
  | x :: xs => x ++ sep ++ joinSep sep xs

/-- JavaScript `[uid1, uid2].sort()` for a two-element array: default
lexicographic string comparison. -/
def sortPair (uid1 uid2 : String) : List String :=
  if uid2 < uid1 then [uid2, uid1] else [uid1, uid2]

/-- `createConversationId(uid1, uid2)` from the source:
`[uid1, uid2].sort().join('_')`. -/
def createConversationId (uid1 uid2 : String) : String :=
  joinSep "_" (sortPair uid1 uid2)

/-! ### Crypto configuration, error and payload types (`types/encryption.ts`) -/

/-- `CRYPTO_CONFIG` from `types/encryption.ts`. -/
structure CryptoConfig where
  VERSION : Nat
  IV_LENGTH : Nat
  KEY_LENGTH : Nat

def CRYPTO_CONFIG : CryptoConfig := { VERSION := 1, IV_LENGTH := 12, KEY_LENGTH := 256 }

/-- `CryptoError` from `types/encryption.ts`: a message plus a machine
readable `code`. -/
structure CryptoError where
  message : String
  code : String
deriving DecidableEq, Repr

/-- `EncryptedPayload`: the wire representation of one encrypted message
body; `ciphertext` and `iv` are base64 strings. -/
structure EncryptedPayload where
  ciphertext : String
  iv : String
  version : Nat
deriving DecidableEq, Repr

/-! ### AES-GCM primitive model

`crypto.subtle.encrypt`/`decrypt` with `{ name: 'AES-GCM', iv }` are platform
primitives, not code of this repository; they are modelled as an explicit
functional parameter: `enc key iv plaintext` produces the ciphertext bytes
(including the GCM tag) and `dec key iv ciphertext` returns `none` exactly when
authentication fails (the `OperationError` `DOMException`). Theorems that need
the primitive's functional contract (decryption inverts encryption under the
same key and iv, ciphertext bytes fit in a byte) take it as a hypothesis at the
relevant inputs. -/
structure AEAD (K : Type) where
  enc : K → List Nat → List Nat → List Nat
  dec : K → List Nat → List Nat → Option (List Nat)

/-! ### `encrypt` / `decrypt` (`services/crypto.ts`) -/

/-- `encrypt(plaintext, key)`: AES-GCM over the UTF-8 bytes under a caller
supplied IV (the source draws `iv = randomBytes(CRYPTO_CONFIG.IV_LENGTH)`;
randomness is passed in explicitly here), then base64 and version tag. -/
def encrypt {K : Type} (A : AEAD K) (iv : List Nat) (plaintext : String) (key : K) :
    EncryptedPayload :=
  { ciphertext := toBase64 (A.enc key iv (stringToBytes plaintext))
    iv := toBase64 iv
    version := CRYPTO_CONFIG.VERSION }

/-- `decrypt(payload, key)`: the version gate throws a plain `Error` that the
surrounding `catch` re-labels as a `CryptoError` with the generic
`DECRYPT_FAILED` code; a `fromBase64` failure (`atob` throwing a
`DOMException` that is not an `OperationError`) takes the same generic path;
an AES-GCM authentication failure (`OperationError`) is mapped to
`INTEGRITY_FAILED`. -/
def decrypt {K : Type} (A : AEAD K) (payload : EncryptedPayload) (key : K) :
    Except CryptoError String :=
  if payload.version ≠ CRYPTO_CONFIG.VERSION then
    .error { message := "Decryption failed: Error: Unsupported version: " ++
               toString payload.version
             code := "DECRYPT_FAILED" }
  else
    match fromBase64 payload.iv with
    | none => .error { message := "Decryption failed: InvalidCharacterError"
                       code := "DECRYPT_FAILED" }
    | some ivBytes =>
      match fromBase64 payload.ciphertext with
      | none => .error { message := "Decryption failed: InvalidCharacterError"
                         code := "DECRYPT_FAILED" }
      | some ctBytes =>
        match A.dec key ivBytes ctBytes with
        | none => .error { message := "Decryption failed: integrity check failed"
                           code := "INTEGRITY_FAILED" }
        | some ptBytes => .ok (bytesToString ptBytes)

/-! ### `encryptObject` / `decryptObject`

`JSON.stringify` / `JSON.parse` are platform primitives; they are modelled as
a codec parameter whose `parse` returns `none` when `JSON.parse` would throw a
`SyntaxError`. -/
structure JsonCodec (Obj : Type) where
  stringify : Obj → String
  parse : String → Option Obj

/-- Failures of `decryptObject`: a `CryptoError` propagated from `decrypt`, or
the uncaught `SyntaxError` from `JSON.parse`. -/
inductive ObjFailure where
  | cryptoError (e : CryptoError)
  | jsonError
deriving DecidableEq, Repr

/-- `encryptObject(obj, key)` = `encrypt(JSON.stringify(obj), key)`. -/
def encryptObject {K Obj : Type} (J : JsonCodec Obj) (A : AEAD K) (iv : List Nat)
    (obj : Obj) (key : K) : EncryptedPayload :=
  encrypt A iv (J.stringify obj) key

/-- `decryptObject(payload, key)` = `JSON.parse(decrypt(payload, key))`. -/
def decryptObject {K Obj : Type} (J : JsonCodec Obj) (A : AEAD K)
    (payload : EncryptedPayload) (key : K) : Except ObjFailure Obj :=
  match decrypt A payload key with
  | .error e => .error (.cryptoError e)
  | .ok json =>
    match J.parse json with
    | some obj => .ok obj
    | none => .error .jsonError

/-! ### Key derivation (`deriveConversationKey`)

ECDH `deriveBits` and HKDF `deriveKey` are platform primitives, modelled as
parameters. `pubOf` maps a private key to the public half of its key pair. -/
structure ECDHModel (Priv Pub Secret : Type) where
  pubOf : Priv → Pub
  deriveBits : Priv → Pub → Secret

structure HKDFModel (Secret K : Type) where
  deriveKey : Secret → String → String → K

/-- `deriveConversationKey(myPrivateKey, theirPublicKey, conversationId)`:
ECDH shared bits, then HKDF-SHA256 with salt `'firechat-e2ee-v1'` and info
`` `conversation:(id)` ``. -/
def deriveConversationKey {Priv Pub Secret K : Type}
    (E : ECDHModel Priv Pub Secret) (H : HKDFModel Secret K)
    (myPrivateKey : Priv) (theirPublicKey : Pub) (conversationId : String) : K :=
  H.deriveKey (E.deriveBits myPrivateKey theirPublicKey)
    "firechat-e2ee-v1" ("conversation:" ++ conversationId)

/-! ### Replay protection (`validateNonce`, `clearNonces`)

The module-level `seenNonces : Set<string>` becomes explicit state: an
insertion-ordered list (JS `Set` iterates in insertion order and never holds
duplicates; every operation below preserves that). The eviction loop deletes
the first `MAX_NONCES * 0.2` iterator values; `10000 * 0.2` evaluates to the
float `2000`, written here as `MAX_NONCES * 2 / 10`. -/
def MAX_NONCES : Nat := 10000

/-- `validateNonce(nonce)`: `false` on a replay; otherwise evicts the oldest
20% once the set has reached capacity, records the nonce, returns `true`.
Returns the updated seen-set alongside the result. -/
def validateNonce (nonce : String) (seenNonces : List String) : Bool × List String :=
  if nonce ∈ seenNonces then
    (false, seenNonces)
  else
    let seenNonces :=
      if MAX_NONCES ≤ seenNonces.length then seenNonces.drop (MAX_NONCES * 2 / 10)
      else seenNonces
    (true, seenNonces ++ [nonce])

/-- `clearNonces()`. -/
def clearNonces (_seenNonces : List String) : List String := []

/-- One client-side operation touching the seen-nonce set. -/
inductive NonceOp where
  | validate (nonce : String)
  | clear

def applyNonceOp (s : List String) : NonceOp → List String
  | .validate n => (validateNonce n s).2
  | .clear => clearNonces s

/-- The seen-nonce set after a sequence of operations, starting from the
empty set the module initializes. -/
def runNonceOps (ops : List NonceOp) : List String :=
  ops.foldl applyNonceOp []

theorem validateNonce_mem (n : String) (s : List String) (h : n ∈ s) :
    validateNonce n s = (false, s) := by
  simp [validateNonce, h]

theorem validateNonce_not_mem_small (n : String) (s : List String)
    (h : n ∉ s) (hlen : s.length < MAX_NONCES) :
    validateNonce n s = (true, s ++ [n]) := by
  have h2 : ¬ MAX_NONCES ≤ s.length := Nat.not_le.mpr hlen
  simp [validateNonce, h, h2]

theorem validateNonce_not_mem_large (n : String) (s : List String)
    (h : n ∉ s) (hlen : MAX_NONCES ≤ s.length) :
    validateNonce n s = (true, s.drop (MAX_NONCES * 2 / 10) ++ [n]) := by
  simp [validateNonce, h, hlen]

theorem validateNonce_length (n : String) (s : List String)
    (hlen : s.length ≤ MAX_NONCES) :
    (validateNonce n s).2.length ≤ MAX_NONCES := by
  by_cases h : n ∈ s
  · rw [validateNonce_mem n s h]
    exact hlen
  · by_cases h2 : MAX_NONCES ≤ s.length
    · rw [validateNonce_not_mem_large n s h h2]
      simp [MAX_NONCES] at hlen h2 ⊢
      omega
    · rw [validateNonce_not_mem_small n s h (by omega)]
      simp [MAX_NONCES] at hlen h2 ⊢
      omega

theorem runNonceOps_aux (ops : List NonceOp) :
    ∀ s : List String, s.length ≤ MAX_NONCES →
      (ops.foldl applyNonceOp s).length ≤ MAX_NONCES := by
  induction ops with
  | nil => intro s hs; simpa using hs
  | cons op ops ih =>
      intro s hs
      rw [List.foldl_cons]
      apply ih
      cases op with
      | validate n => exact validateNonce_length n s hs
      | clear => simp [applyNonceOp, clearNonces]

/-! ### Message encryption/decryption (`useEncryption` composable) -/

/-- `MessageContent` from the composable: currently just optional text. -/
structure MessageContent where
  text : Option String
deriving DecidableEq, Repr

/-- The plaintext structure actually encrypted: `{ ...content, _nonce: nonce }`.
The `nonce` field models the source's `_nonce`. -/
structure NoncedContent where
  content : MessageContent
  nonce : String
deriving DecidableEq, Repr

/-- Failures of `decryptMessage`: an error propagated from `decryptObject`,
or a plain `Error` thrown by `decryptMessage` itself. -/
inductive MsgFailure where
  | objFailure (e : ObjFailure)
  | thrown (message : String)
deriving DecidableEq, Repr

/-- `encryptMessage(recipientId, content)`: conversation key via
`getConversationKey` (modelled by `getKey`), fresh random `nonce` and `iv`
passed in explicitly, nonce embedded in the plaintext object and also returned
as cleartext `messageNonce`. -/
def encryptMessage {K : Type} (J : JsonCodec NoncedContent) (A : AEAD K)
    (getKey : String → K) (recipientId : String) (iv : List Nat) (nonce : String)
    (content : MessageContent) : EncryptedPayload × String :=
  (encryptObject J A iv { content := content, nonce := nonce } (getKey recipientId), nonce)

/-- `decryptMessage(senderId, encrypted, messageNonce, skipReplayCheck)`.
The module-level seen-nonce set is threaded explicitly: the second component
is the set after the call (`validateNonce` only mutates it when it is
consulted and records the nonce). -/
def decryptMessage {K : Type} (J : JsonCodec NoncedContent) (A : AEAD K)
    (getKey : String → K) (senderId : String) (encrypted : EncryptedPayload)
    (messageNonce : String) (skipReplayCheck : Bool) (seenNonces : List String) :
    Except MsgFailure MessageContent × List String :=
  let key := getKey senderId
  match decryptObject J A encrypted key with
  | .error e => (.error (.objFailure e), seenNonces)
  | .ok decrypted =>
    if decrypted.nonce ≠ messageNonce then
      (.error (.thrown "Message nonce mismatch - possible tampering"), seenNonces)
    else
      if !skipReplayCheck then
        match validateNonce messageNonce seenNonces with
        | (false, s) => (.error (.thrown "Duplicate nonce - possible replay attack"), s)
        | (true, s) => (.ok decrypted.content, s)
      else
        (.ok decrypted.content, seenNonces)

/-! ### Message subscription (`useEncryptedChat` composable) -/

/-- `EncryptedMessage`: one message document as stored in Firestore. -/
structure EncryptedMessage where
  id : String
  senderId : String
  recipientId : String
  senderUsername : String
  conversationId : String
  createdAt : Nat
  encrypted : EncryptedPayload
  messageNonce : String
deriving DecidableEq, Repr

/-- `decryptMessageSafe(msg, skipReplayCheck)`: picks the conversation partner
(recipient for own messages, sender otherwise) and forwards to
`decryptMessage` with the same `skipReplayCheck` flag. -/
def decryptMessageSafe {K : Type} (J : JsonCodec NoncedContent) (A : AEAD K)
    (getKey : String → K) (currentUid : String) (msg : EncryptedMessage)
    (skipReplayCheck : Bool) (seenNonces : List String) :
    Except MsgFailure MessageContent × List String :=
  let partnerId := if msg.senderId = currentUid then msg.recipientId else msg.senderId
  decryptMessage J A getKey partnerId msg.encrypted msg.messageNonce skipReplayCheck
    seenNonces

/-- The decrypt calls `subscribeToMessages`'s snapshot handler issues: for each
snapshot document, a cached message is reused without any decrypt call
(`none`), and an uncached one is decrypted via
`decryptMessageSafe(data, true)` — the pair records the document id and the
`skipReplayCheck` argument passed. -/
def subscribeDecryptCalls (decryptedCache : List String) (docIds : List String) :
    List (String × Bool) :=
  docIds.filterMap fun msgId =>
    if msgId ∈ decryptedCache then none else some (msgId, true)

/-! ### Concrete stand-ins for the platform primitives, used by witnesses -/

/-- Witness cipher: XOR with a key-derived byte; decryption inverts encryption
and preserves the byte range, so it satisfies the AEAD functional contract
assumed of AES-GCM. -/
def xorAEAD : AEAD Nat :=
  { enc := fun key _iv pt => pt.map fun b => b ^^^ key % 256
    dec := fun key _iv ct => some (ct.map fun b => b ^^^ key % 256) }

/-- Witness codec for plain string payloads. -/
def idJson : JsonCodec String := { stringify := fun s => s, parse := fun s => some s }

/-- Witness message content. -/
def demoContent : MessageContent := { text := some "hi" }

/-- Witness codec for `NoncedContent` with fixed content `demoContent`:
`parse` inverts `stringify` on every such value. -/
def demoJson : JsonCodec NoncedContent :=
  { stringify := fun d => d.nonce
    parse := fun s => some { content := demoContent, nonce := s } }

/-- Witness ECDH instance: classic Diffie-Hellman in the group `(Z mod 97)ˣ`
with generator 5. -/
def demoECDH : ECDHModel Nat Nat Nat :=
  { pubOf := fun sk => 5 ^ sk % 97
    deriveBits := fun sk pk => pk ^ sk % 97 }

/-- Witness HKDF instance: an arbitrary deterministic expansion. -/
def demoHKDF : HKDFModel Nat Nat :=
  { deriveKey := fun secret salt info => secret * 1000003 + salt.length * 1009 + info.length }

/-- Witness IV (the source uses 12 random bytes). -/
def ivDemo : List Nat := [1, 2, 3, 4, 5, 6, 7, 8, 9, 10, 11, 12]

/-- Extracts the `code` of a `CryptoError` result of `decrypt`, if any. -/
def exceptCode : Except CryptoError String → Option String
  | .error e => some e.code
  | .ok _ => none

/-! ### Claim theorems -/

/-- C7: `createConversationId(a, b)` equals the two identifiers sorted
lexicographically and joined with `'_'`; in particular it is symmetric in its
arguments. -/
theorem createConversationId_sorted_symm (a b : String) :
    createConversationId a b = createConversationId b a ∧
    (a ≤ b → createConversationId a b = a ++ "_" ++ b) := by
  constructor
  · unfold createConversationId sortPair
    rcases lt_trichotomy a b with h | h | h
    · rw [if_neg (not_lt.mpr h.le), if_pos h]
    · subst h
      rfl
    · rw [if_pos h, if_neg (not_lt.mpr h.le)]
  · intro hle
    unfold createConversationId sortPair
    rw [if_neg (not_lt.mpr hle)]
    rfl

/-- Witness for C7 at `a = "alice"`, `b = "bob"`. -/
theorem createConversationId_sorted_symm_witness :
    ("alice" ≤ "bob") ∧ createConversationId "alice" "bob" = "alice" ++ "_" ++ "bob" :=
  ⟨by rw [String.le_iff_toList_le]; decide,
   (createConversationId_sorted_symm "alice" "bob").2
     (by rw [String.le_iff_toList_le]; decide)⟩

/-- C10: base64 round-trip at the wire-format boundary — for every byte array
`b`, `fromBase64(toBase64(b))` recovers `b` (the `Option` reflects that `atob`
can throw on other inputs). -/
theorem fromBase64_toBase64 (bytes : List Nat) (h : ∀ x ∈ bytes, x < 256) :
    fromBase64 (toBase64 bytes) = some bytes :=
  fromBase64_toBase64_eq bytes h

/-- Witness for C10 on a concrete byte array. -/
theorem fromBase64_toBase64_witness :
    (∀ x ∈ [0, 1, 77, 128, 255], x < 256) ∧
      fromBase64 (toBase64 [0, 1, 77, 128, 255]) = some [0, 1, 77, 128, 255] :=
  ⟨by decide, fromBase64_toBase64 [0, 1, 77, 128, 255] (by decide)⟩

/-- C8: for a fresh nonce, `validateNonce` evicts exactly the oldest 20%
(2000 entries, `MAX_NONCES * 0.2`) by insertion order before recording the
nonce and returning `true` once the seen-set has reached the 10,000-entry
capacity threshold, and evicts nothing while the set is below the
threshold. -/
theorem validateNonce_eviction (nonce : String) (seen : List String) (h : nonce ∉ seen) :
    (MAX_NONCES ≤ seen.length →
      validateNonce nonce seen = (true, seen.drop (MAX_NONCES * 2 / 10) ++ [nonce])) ∧
    (seen.length < MAX_NONCES → validateNonce nonce seen = (true, seen ++ [nonce])) :=
  ⟨fun h2 => validateNonce_not_mem_large nonce seen h h2,
   fun h2 => validateNonce_not_mem_small nonce seen h h2⟩

/-- Witness for C8 on a concrete below-threshold state. -/
theorem validateNonce_eviction_witness :
    ("n" ∉ ["a", "b"]) ∧ (["a", "b"].length < MAX_NONCES) ∧
      validateNonce "n" ["a", "b"] = (true, ["a", "b", "n"]) :=
  ⟨by decide, by decide,
   (validateNonce_eviction "n" ["a", "b"] (by decide)).2 (by decide)⟩

/-- C9: the seen-nonce set stays bounded by `MAX_NONCES` under every finite
sequence of `validateNonce`/`clearNonces` calls starting from the empty set,
and a `validateNonce` call that returns `true` records its argument. -/
theorem seenNonces_bounded :
    (∀ ops : List NonceOp, (runNonceOps ops).length ≤ MAX_NONCES) ∧
    (∀ (n : String) (s : List String),
      (validateNonce n s).1 = true → n ∈ (validateNonce n s).2) := by
  constructor
  · intro ops
    exact runNonceOps_aux ops [] (by simp [MAX_NONCES])
  · intro n s hv
    by_cases hm : n ∈ s
    · rw [validateNonce_mem n s hm] at hv
      simp at hv
    · by_cases h2 : MAX_NONCES ≤ s.length
      · rw [validateNonce_not_mem_large n s hm h2]
        simp
      · rw [validateNonce_not_mem_small n s hm (by omega)]
        simp

/-- Witness for C9's membership part at a concrete call. -/
theorem seenNonces_bounded_witness :
    ((validateNonce "a" []).1 = true) ∧ "a" ∈ (validateNonce "a" []).2 :=
  ⟨by decide, seenNonces_bounded.2 "a" [] (by decide)⟩

/-- C2: `deriveConversationKey` is symmetric — given the ECDH guarantee that
both key pairs derive the same shared bits, both endpoints feed identical
inputs (same salt, same conversation-bound info) to HKDF and so derive the
same AES key, with no key material transmitted. -/
theorem deriveConversationKey_symm {Priv Pub Secret K : Type}
    (E : ECDHModel Priv Pub Secret) (H : HKDFModel Secret K)
    (skA skB : Priv) (cid : String)
    (hE : E.deriveBits skA (E.pubOf skB) = E.deriveBits skB (E.pubOf skA)) :
    deriveConversationKey E H skA (E.pubOf skB) cid =
      deriveConversationKey E H skB (E.pubOf skA) cid := by
  unfold deriveConversationKey
  rw [hE]

/-- Witness for C2 with concrete Diffie-Hellman key pairs mod 97. -/
theorem deriveConversationKey_symm_witness :
    (demoECDH.deriveBits 3 (demoECDH.pubOf 4) = demoECDH.deriveBits 4 (demoECDH.pubOf 3)) ∧
      deriveConversationKey demoECDH demoHKDF 3 (demoECDH.pubOf 4) "alice_bob" =
        deriveConversationKey demoECDH demoHKDF 4 (demoECDH.pubOf 3) "alice_bob" :=
  ⟨by decide, deriveConversationKey_symm demoECDH demoHKDF 3 4 "alice_bob" (by decide)⟩

/-! ### Round-trip helper lemmas shared by the remaining claims -/

theorem decrypt_encrypt_ok {K : Type} (A : AEAD K) (key : K) (iv : List Nat) (s : String)
    (hiv : ∀ x ∈ iv, x < 256)
    (hd : A.dec key iv (A.enc key iv (stringToBytes s)) = some (stringToBytes s))
    (hc : ∀ x ∈ A.enc key iv (stringToBytes s), x < 256) :
    decrypt A (encrypt A iv s key) key = .ok s := by
  have e1 : fromBase64 (toBase64 iv) = some iv := fromBase64_toBase64_eq iv hiv
  have e2 : fromBase64 (toBase64 (A.enc key iv (stringToBytes s))) =
      some (A.enc key iv (stringToBytes s)) := fromBase64_toBase64_eq _ hc
  simp [encrypt, decrypt, e1, e2, hd, bytesToString_stringToBytes]

theorem decryptObject_encryptObject_ok {K Obj : Type} (J : JsonCodec Obj) (A : AEAD K)
    (key : K) (iv : List Nat) (obj : Obj)
    (hiv : ∀ x ∈ iv, x < 256)
    (hd : A.dec key iv (A.enc key iv (stringToBytes (J.stringify obj))) =
      some (stringToBytes (J.stringify obj)))
    (hc : ∀ x ∈ A.enc key iv (stringToBytes (J.stringify obj)), x < 256)
    (hJ : J.parse (J.stringify obj) = some obj) :
    decryptObject J A (encryptObject J A iv obj key) key = .ok obj := by
  have e := decrypt_encrypt_ok A key iv (J.stringify obj) hiv hd hc
  simp [encryptObject, decryptObject, e, hJ]

/-- C1: round-trip — for every plaintext string `m` and every key satisfying
the AES-GCM functional contract at the relevant inputs,
`decrypt(encrypt(m, key), key)` succeeds with `m`; correspondingly, for every
object the JSON codec round-trips, `decryptObject(encryptObject(obj, key),
key)` succeeds with `obj`. -/
theorem decrypt_encrypt_roundtrip {K Obj : Type} (A : AEAD K) (J : JsonCodec Obj)
    (key : K) (iv : List Nat) (m : String) (obj : Obj)
    (hiv : ∀ x ∈ iv, x < 256)
    (hdec1 : A.dec key iv (A.enc key iv (stringToBytes m)) = some (stringToBytes m))
    (hct1 : ∀ x ∈ A.enc key iv (stringToBytes m), x < 256)
    (hdec2 : A.dec key iv (A.enc key iv (stringToBytes (J.stringify obj))) =
      some (stringToBytes (J.stringify obj)))
    (hct2 : ∀ x ∈ A.enc key iv (stringToBytes (J.stringify obj)), x < 256)
    (hJ : J.parse (J.stringify obj) = some obj) :
    decrypt A (encrypt A iv m key) key = .ok m ∧
    decryptObject J A (encryptObject J A iv obj key) key = .ok obj :=
  ⟨decrypt_encrypt_ok A key iv m hiv hdec1 hct1,
   decryptObject_encryptObject_ok J A key iv obj hiv hdec2 hct2 hJ⟩

/-- Witness for C1 with the XOR stand-in cipher, key `7`, a concrete IV, the
plaintext `"Hi!"` and the string-object `"ok"`. -/
theorem decrypt_encrypt_roundtrip_witness :
    decrypt xorAEAD (encrypt xorAEAD ivDemo "Hi!" 7) 7 = .ok "Hi!" ∧
    decryptObject idJson xorAEAD (encryptObject idJson xorAEAD ivDemo "ok" 7) 7 =
     .ok "ok" :=
  decrypt_encrypt_roundtrip xorAEAD idJson 7 ivDemo "Hi!" "ok"
    (by decide) (by decide) (by decide) (by decide) (by decide) (by decide)

/-- C5: whenever the decrypted plaintext object's embedded `_nonce` differs
from the transport-level `messageNonce`, `decryptMessage` fails with the
nonce-mismatch error — even though AES-GCM authentication succeeded (the
decryption itself returned `ok`) — for both values of `skipReplayCheck`, and
before any replay check (the seen-nonce state is left untouched). -/
theorem decryptMessage_nonce_mismatch {K : Type} (J : JsonCodec NoncedContent)
    (A : AEAD K) (getKey : String → K) (senderId : String)
    (encrypted : EncryptedPayload) (messageNonce : String) (skipReplayCheck : Bool)
    (seenNonces : List String) (d : NoncedContent)
    (hdec : decryptObject J A encrypted (getKey senderId) = .ok d)
    (hne : d.nonce ≠ messageNonce) :
    decryptMessage J A getKey senderId encrypted messageNonce skipReplayCheck
        seenNonces =
      (.error (.thrown "Message nonce mismatch - possible tampering"), seenNonces) := by
  simp [decryptMessage, hdec, hne]

/-- Witness for C5: a payload carrying embedded nonce `"X"` but labelled with
transport nonce `"Y"`, under both flag values. -/
theorem decryptMessage_nonce_mismatch_witness :
    decryptMessage demoJson xorAEAD (fun _ => 7) "alice"
        (encryptObject demoJson xorAEAD ivDemo ⟨demoContent, "X"⟩ 7) "Y" false [] =
      (.error (.thrown "Message nonce mismatch - possible tampering"), []) ∧
    decryptMessage demoJson xorAEAD (fun _ => 7) "alice"
        (encryptObject demoJson xorAEAD ivDemo ⟨demoContent, "X"⟩ 7) "Y" true [] =
      (.error (.thrown "Message nonce mismatch - possible tampering"), []) :=
  have hdec : decryptObject demoJson xorAEAD
      (encryptObject demoJson xorAEAD ivDemo ⟨demoContent, "X"⟩ 7) ((fun _ => 7) "alice") =
      .ok ⟨demoContent, "X"⟩ :=
    decryptObject_encryptObject_ok demoJson xorAEAD 7 ivDemo ⟨demoContent, "X"⟩
      (by decide) (by decide) (by decide) rfl
  ⟨decryptMessage_nonce_mismatch demoJson xorAEAD (fun _ => 7) "alice" _ "Y" false []
     ⟨demoContent, "X"⟩ hdec (by decide),
   decryptMessage_nonce_mismatch demoJson xorAEAD (fun _ => 7) "alice" _ "Y" true []
     ⟨demoContent, "X"⟩ hdec (by decide)⟩

/-- C6: starting from the empty seen-nonce set, decrypting a valid
`(payload, messageNonce)` pair with `skipReplayCheck = false` succeeds and
records the nonce; repeating the same call on the resulting state fails with
the replay error; with `skipReplayCheck = true` the call succeeds without
touching the state, so repeating it succeeds as well. -/
theorem decryptMessage_replay {K : Type} (J : JsonCodec NoncedContent) (A : AEAD K)
    (getKey : String → K) (senderId : String) (encrypted : EncryptedPayload)
    (messageNonce : String) (d : NoncedContent)
    (hdec : decryptObject J A encrypted (getKey senderId) = .ok d)
    (heq : d.nonce = messageNonce) :
    decryptMessage J A getKey senderId encrypted messageNonce false [] =
      (.ok d.content, [messageNonce]) ∧
    decryptMessage J A getKey senderId encrypted messageNonce false
        (decryptMessage J A getKey senderId encrypted messageNonce false []).2 =
      (.error (.thrown "Duplicate nonce - possible replay attack"), [messageNonce]) ∧
    decryptMessage J A getKey senderId encrypted messageNonce true [] =
      (.ok d.content, []) := by
  have h1 : validateNonce messageNonce [] = (true, [messageNonce]) := by
    simpa using validateNonce_not_mem_small messageNonce [] (by simp)
      (by simp [MAX_NONCES])
  have h2 : validateNonce messageNonce [messageNonce] = (false, [messageNonce]) :=
    validateNonce_mem _ _ (by simp)
  have r1 : decryptMessage J A getKey senderId encrypted messageNonce false [] =
      (.ok d.content, [messageNonce]) := by
    simp [decryptMessage, hdec, heq, h1]
  refine ⟨r1, ?_, ?_⟩
  · rw [r1]
    simp [decryptMessage, hdec, heq, h2]
  · simp [decryptMessage, hdec, heq]

/-- Witness for C6: a matching embedded/transport nonce `"X"`, decrypted
twice from the empty seen-set. -/
theorem decryptMessage_replay_witness :
    decryptMessage demoJson xorAEAD (fun _ => 7) "alice"
        (encryptObject demoJson xorAEAD ivDemo ⟨demoContent, "X"⟩ 7) "X" false [] =
      (.ok demoContent, ["X"]) ∧
    decryptMessage demoJson xorAEAD (fun _ => 7) "alice"
        (encryptObject demoJson xorAEAD ivDemo ⟨demoContent, "X"⟩ 7) "X" false
        (decryptMessage demoJson xorAEAD (fun _ => 7) "alice"
          (encryptObject demoJson xorAEAD ivDemo ⟨demoContent, "X"⟩ 7) "X" false []).2 =
      (.error (.thrown "Duplicate nonce - possible replay attack"), ["X"]) ∧
    decryptMessage demoJson xorAEAD (fun _ => 7) "alice"
        (encryptObject demoJson xorAEAD ivDemo ⟨demoContent, "X"⟩ 7) "X" true [] =
      (.ok demoContent, []) :=
  decryptMessage_replay demoJson xorAEAD (fun _ => 7) "alice"
    (encryptObject demoJson xorAEAD ivDemo ⟨demoContent, "X"⟩ 7) "X" ⟨demoContent, "X"⟩
    (decryptObject_encryptObject_ok demoJson xorAEAD 7 ivDemo ⟨demoContent, "X"⟩
      (by decide) (by decide) (by decide) rfl)
    rfl

/-- C3 counterexample: a payload with `version = 2` makes `decrypt` fail with
a `CryptoError` whose code is the generic `DECRYPT_FAILED` — the identical
code an ordinary decryption failure (here: undecodable base64 ciphertext)
carries — so the version failure is not distinguished from a generic
decryption failure; no `UnsupportedVersion` error kind exists in the code. -/
theorem decrypt_version_not_distinguished :
    exceptCode (decrypt xorAEAD { ciphertext := "", iv := "", version := 2 } 0) =
      some "DECRYPT_FAILED" ∧
    exceptCode (decrypt xorAEAD { ciphertext := "!", iv := "", version := 1 } 0) =
      some "DECRYPT_FAILED" ∧
    exceptCode (decrypt xorAEAD { ciphertext := "", iv := "", version := 2 } 0) =
      exceptCode (decrypt xorAEAD { ciphertext := "!", iv := "", version := 1 } 0) := by
  refine ⟨?_, ?_, ?_⟩ <;> decide

/-- C3 (amended): `decrypt` on a payload whose version differs from
`CRYPTO_CONFIG.VERSION` fails with a `CryptoError` carrying the generic
`DECRYPT_FAILED` code and a message naming the unsupported version, and it
does not attempt AES-GCM decryption: the result is identical under any cipher
and any key. -/
theorem decrypt_unsupported_version {K : Type} (A A2 : AEAD K)
    (payload : EncryptedPayload) (key key2 : K)
    (hv : payload.version ≠ CRYPTO_CONFIG.VERSION) :
    decrypt A payload key =
      .error { message := "Decryption failed: Error: Unsupported version: " ++
                 toString payload.version
               code := "DECRYPT_FAILED" } ∧
    decrypt A payload key = decrypt A2 payload key2 := by
  constructor
  · simp [decrypt, hv]
  · simp [decrypt, hv]

/-- Witness for C3's amended statement at a concrete `version = 2` payload,
with two different ciphers and keys. -/
theorem decrypt_unsupported_version_witness :
    decrypt xorAEAD { ciphertext := "", iv := "", version := 2 } 0 =
      .error { message := "Decryption failed: Error: Unsupported version: 2"
               code := "DECRYPT_FAILED" } ∧
    decrypt xorAEAD { ciphertext := "", iv := "", version := 2 } 0 =
      decrypt xorAEAD { ciphertext := "", iv := "", version := 2 } 1 := by
  have h := decrypt_unsupported_version xorAEAD xorAEAD
    { ciphertext := "", iv := "", version := 2 } 0 1 (by decide)
  exact ⟨h.1, h.2⟩

/-- C4 (code evaluation at the failing input): for a message document absent
from the decrypted-message cache, `subscribeToMessages`'s snapshot handler
calls `decryptMessageSafe` with `skipReplayCheck = true` — not `false` — so
the replay guard is bypassed on real-time delivery of a new message. -/
theorem subscribeToMessages_skip_flag :
    subscribeDecryptCalls [] ["msg-1"] = [("msg-1", true)] := by decide

end Firechat
